import Mathlib

/-!
Shallow embedding of `teensy-mon.py`.

The colorizing output transform (`OutputWriter.write`), the device
predicate (`is_teensy`) and the per-event body of the connected-session
loop (`teensy_mon`) are translated into executable Lean definitions, and
the specification's claims about them are settled as theorems below.
-/

/-- ANSI escape `"\033[1;33m"` (`LT_YELLOW` in the source). -/
def LT_YELLOW : List Char := ['\x1b', '[', '1', ';', '3', '3', 'm']

/-- ANSI escape `"\033[1;34m"` (`LT_BLUE` in the source). -/
def LT_BLUE : List Char := ['\x1b', '[', '1', ';', '3', '4', 'm']

/-- ANSI escape `"\033[1;31m"` (`LT_RED` in the source). -/
def LT_RED : List Char := ['\x1b', '[', '1', ';', '3', '1', 'm']

/-- ANSI escape `"\033[0m"` (`NO_COLOR` in the source). -/
def NO_COLOR : List Char := ['\x1b', '[', '0', 'm']

/-- The `COLORS` dict of the source: maps a line-tag letter to its escape
sequence; `none` models "key not in the dict". Note `'I'` maps to the
empty string, which is a present key. -/
def COLORS : Char → Option (List Char)
  | 'W' => some LT_YELLOW
  | 'I' => some []
  | 'D' => some LT_BLUE
  | 'C' => some LT_RED
  | 'E' => some LT_RED
  | _ => none

/-- The mutable state of one `OutputWriter` instance. -/
structure OWState where
  buffered_output : List Char
  column : Nat
  colored : Bool
deriving DecidableEq, Repr

/-- `OutputWriter.__init__`: empty buffer, column 0, not colored. -/
def OWinit : OWState := ⟨[], 0, false⟩

/-- One emission performed by `sys.stdout.write(prefix + line_string + suffix)`:
the inserted color escape, the payload segment, and the inserted reset
escape are kept apart so that "ignoring escape codes" is well defined. -/
structure Piece where
  pfx : List Char
  line : List Char
  sfx : List Char
deriving DecidableEq, Repr

/-- Flat byte stream of one emission, exactly what the source writes. -/
def pieceBytes (p : Piece) : List Char := p.pfx ++ p.line ++ p.sfx

/-- All bytes written to stdout by a list of emissions. -/
def emitted (ps : List Piece) : List Char := (ps.map pieceBytes).flatten

/-- The emitted bytes ignoring the inserted escape codes. -/
def payload (ps : List Piece) : List Char := (ps.map Piece.line).flatten

/-- `string.find('\n')` followed by the split into
`string[0:nl_index+1]` and `string[nl_index+1:]`: `none` models
`nl_index < 0`, otherwise the line (newline included) and the rest. -/
def breakNl : List Char → Option (List Char × List Char)
  | [] => none
  | c :: cs =>
    if c = '\n' then some ([c], cs)
    else
      match breakNl cs with
      | none => none
      | some (l, r) => some (c :: l, r)

/-- Lines 72-75 of the source: the color-prefix decision is taken only
when `column == 0`, and fires when the buffer has at least two bytes,
byte 1 is `':'` and byte 0 is a key of `COLORS`. -/
def colorDecision (column : Nat) (s : List Char) : Option (List Char) :=
  if column = 0 then
    match s with
    | c0 :: c1 :: _ => if c1 = ':' then COLORS c0 else none
    | _ => none
  else none

theorem breakNl_append {s l r : List Char} (h : breakNl s = some (l, r)) :
    l ++ r = s := by
  induction s generalizing l r with
  | nil => simp [breakNl] at h
  | cons c cs ih =>
    by_cases hc : c = '\n'
    · simp [breakNl, hc] at h
      obtain ⟨h1, h2⟩ := h
      subst h1; subst h2
      simp [hc]
    · simp only [breakNl, if_neg hc] at h
      cases h' : breakNl cs with
      | none => rw [h'] at h; exact absurd h (by simp)
      | some p =>
        obtain ⟨l', r'⟩ := p
        rw [h'] at h
        simp at h
        obtain ⟨h1, h2⟩ := h
        subst h1; subst h2
        rw [List.cons_append, ih h']

theorem breakNl_len {s l r : List Char} (h : breakNl s = some (l, r)) :
    r.length < s.length := by
  have h2 := breakNl_append h
  have hl : 0 < l.length := by
    cases s with
    | nil => simp [breakNl] at h
    | cons c cs =>
      by_cases hc : c = '\n'
      · simp [breakNl, hc] at h
        rw [← h.1]
        simp
      · simp only [breakNl, if_neg hc] at h
        cases h' : breakNl cs with
        | none => rw [h'] at h; exact absurd h (by simp)
        | some p =>
          obtain ⟨l', r'⟩ := p
          rw [h'] at h
          simp at h
          rw [← h.1]
          simp
  have := congrArg List.length h2
  simp at this
  omega

theorem breakNl_none {s : List Char} (h : breakNl s = none) : '\n' ∉ s := by
  induction s with
  | nil => simp
  | cons c cs ih =>
    by_cases hc : c = '\n'
    · simp [breakNl, hc] at h
    · simp only [breakNl, if_neg hc] at h
      cases h' : breakNl cs with
      | none =>
        simp [hc]
        exact ⟨fun he => hc he.symm, ih h'⟩
      | some p => rw [h'] at h; exact absurd h (by simp)

/-- The `while True` loop of `OutputWriter.write`, after the pending
buffer has been prepended.  Returns the updated state (the buffer it
leaves behind, the column, the `colored` flag) and the list of
emissions performed. -/
def writeLoop (column : Nat) (colored : Bool) (s : List Char) :
    OWState × List Piece :=
  match h : breakNl s with
  | none =>
    if column = 0 ∧ s.length < 2 then
      (⟨s, column, colored⟩, [])
    else
      let popt := colorDecision column s
      let colored2 := colored || popt.isSome
      (⟨[], column + s.length, colored2⟩, [⟨popt.getD [], s, []⟩])
  | some (l, r) =>
    let popt := colorDecision column s
    let colored2 := colored || popt.isSome
    let sfx := if colored2 then NO_COLOR else []
    let res := writeLoop 0 colored2 r
    (res.1, ⟨popt.getD [], l, sfx⟩ :: res.2)
termination_by s.length
decreasing_by exact breakNl_len h

/-- `OutputWriter.write`: prepend and clear the pending buffer, then run
the loop. -/
def write (st : OWState) (s : List Char) : OWState × List Piece :=
  writeLoop st.column st.colored (st.buffered_output ++ s)

/-- Feeding a sequence of chunks to one `OutputWriter` instance,
collecting every emission. -/
def consumeAll (st : OWState) : List (List Char) → OWState × List Piece
  | [] => (st, [])
  | c :: cs =>
    let res := write st c
    let res2 := consumeAll res.1 cs
    (res2.1, res.2 ++ res2.2)

/-- A pyudev device as the program reads it: the device node path, the
udev properties `ID_VENDOR` and `ID_SERIAL_SHORT` (each possibly absent
from the property dict), and the hotplug action string.  Strings are
lists of characters. -/
structure Device where
  device_node : List Char
  id_vendor : Option (List Char)
  id_serial_short : Option (List Char)
  action : List Char
deriving DecidableEq, Repr

/-- Python's `s.startswith(pre)`. -/
def startswith (s pre : List Char) : Bool := pre.isPrefixOf s

/-- The vendor prefix `'Teensy'` required by `is_teensy`. -/
def teensyVendor : List Char := ['T', 'e', 'e', 'n', 's', 'y']

/-- The hotplug action string `'remove'`. -/
def removeAction : List Char := ['r', 'e', 'm', 'o', 'v', 'e']

/-- `is_teensy(device, serial_num)`.  Python dict access
`device['ID_SERIAL_SHORT']` raises `KeyError` when the key is absent, so
the function is embedded in `Except`: `.error "KeyError"` models the
raised exception. -/
def is_teensy (device : Device) (serial_num : Option (List Char)) :
    Except String Bool :=
  match device.id_vendor with
  | none => .ok false
  | some v =>
    if ¬ startswith v teensyVendor then .ok false
    else
      match serial_num with
      | none => .ok true
      | some sn =>
        match device.id_serial_short with
        | none => .error "KeyError"
        | some s => .ok (s = sn)

deriving instance DecidableEq for Except

/-- One readiness event serviced by the `while True` loop of
`teensy_mon`: a hotplug notification with its polled device, a serial
read with its result (`.error` models `SerialException`), or one unit of
console input together with whether the subsequent
`serial_port.write` succeeds. -/
inductive Event where
  | hotplug (dev : Device)
  | serialRead (result : Except String (List Char))
  | consoleInput (c : Char) (writeOk : Bool)
deriving DecidableEq, Repr

/-- Outcome of servicing one event inside `teensy_mon`:
`go` — the loop continues, with the updated `OutputWriter` state, the
bytes it emitted and the bytes written to the serial port;
`ended` — the function returned, `portClosed` recording whether
`serial_port.close()` ran first;
`raised` — an uncaught exception propagated out of `teensy_mon`,
`portClosed` recording whether the port was closed on that path. -/
inductive StepResult where
  | go (ow : OWState) (pieces : List Piece) (sent : List Char)
  | ended (portClosed : Bool)
  | raised (portClosed : Bool)
deriving DecidableEq, Repr

/-- Lines 139-165 of the source: the body of the event loop of
`teensy_mon`, for one serviced event, given the session's device path
`port_name` and the current `OutputWriter` state. -/
def sessionStep (port_name : List Char) (ow : OWState) (ev : Event) :
    StepResult :=
  match ev with
  | .hotplug dev =>
    if dev.device_node ≠ port_name ∨ dev.action ≠ removeAction then
      .go ow [] []
    else
      .ended true
  | .serialRead (.error _) => .ended true
  | .serialRead (.ok data) =>
    let res := write ow data
    .go res.1 res.2 []
  | .consoleInput c writeOk =>
    let sent : List Char := if c = '\n' then ['\r'] else [c]
    if writeOk then .go ow [] sent else .raised false

theorem writeLoop_none {s : List Char} (h : breakNl s = none)
    (c : Nat) (b : Bool) :
    writeLoop c b s =
      if c = 0 ∧ s.length < 2 then (⟨s, c, b⟩, [])
      else (⟨[], c + s.length, b || (colorDecision c s).isSome⟩,
            [⟨(colorDecision c s).getD [], s, []⟩]) := by
  rw [writeLoop]
  split
  · rfl
  · rename_i l r heq
    rw [h] at heq
    exact absurd heq (by simp)

theorem writeLoop_some {s l r : List Char} (h : breakNl s = some (l, r))
    (c : Nat) (b : Bool) :
    writeLoop c b s =
      ((writeLoop 0 (b || (colorDecision c s).isSome) r).1,
        ⟨(colorDecision c s).getD [], l,
          if (b || (colorDecision c s).isSome) = true then NO_COLOR else []⟩ ::
        (writeLoop 0 (b || (colorDecision c s).isSome) r).2) := by
  rw [writeLoop]
  split
  · rename_i heq
    rw [h] at heq
    exact absurd heq (by simp)
  · rename_i l' r' heq
    rw [h] at heq
    simp at heq
    obtain ⟨h1, h2⟩ := heq
    subst h1
    subst h2
    rfl

theorem writeLoop_payload (c : Nat) (b : Bool) (s : List Char) :
    payload (writeLoop c b s).2 ++ (writeLoop c b s).1.buffered_output = s := by
  induction c, b, s using writeLoop.induct with
  | case1 c b s h hc =>
    rw [writeLoop_none h, if_pos hc]
    simp [payload]
  | case2 c b s h hc =>
    rw [writeLoop_none h, if_neg hc]
    simp [payload]
  | case3 c b s l r h popt colored2 ih =>
    rw [writeLoop_some h]
    simp only [payload, List.map_cons, List.flatten_cons]
    rw [List.append_assoc]
    have ih2 :
        (List.map Piece.line
            (writeLoop 0 (b || (colorDecision c s).isSome) r).2).flatten ++
          (writeLoop 0 (b || (colorDecision c s).isSome) r).1.buffered_output
          = r := ih
    rw [ih2]
    exact breakNl_append h

theorem writeLoop_buffered (c : Nat) (b : Bool) (s : List Char) :
    (writeLoop c b s).1.buffered_output.length < 2 := by
  induction c, b, s using writeLoop.induct with
  | case1 c b s h hc =>
    rw [writeLoop_none h, if_pos hc]
    exact hc.2
  | case2 c b s h hc =>
    rw [writeLoop_none h, if_neg hc]
    simp
  | case3 c b s l r h popt colored2 ih =>
    rw [writeLoop_some h]
    exact ih

theorem writeLoop_colored (c : Nat) (b : Bool) (s : List Char) :
    b = true →
      (writeLoop c b s).1.colored = true ∧
        ∀ p ∈ (writeLoop c b s).2, '\n' ∈ p.line → p.sfx = NO_COLOR := by
  induction c, b, s using writeLoop.induct with
  | case1 c b s h hc =>
    intro hb
    rw [writeLoop_none h, if_pos hc]
    simp [hb]
  | case2 c b s h hc =>
    intro hb
    rw [writeLoop_none h, if_neg hc]
    refine ⟨by simp [hb], ?_⟩
    intro p hp hnl
    simp at hp
    rw [hp] at hnl
    exact absurd hnl (breakNl_none h)
  | case3 c b s l r h popt colored2 ih =>
    intro hb
    rw [writeLoop_some h]
    have hcol : (b || (colorDecision c s).isSome) = true := by simp [hb]
    have ihx :
        (writeLoop 0 (b || (colorDecision c s).isSome) r).1.colored = true ∧
          ∀ p ∈ (writeLoop 0 (b || (colorDecision c s).isSome) r).2,
            '\n' ∈ p.line → p.sfx = NO_COLOR := ih hcol
    obtain ⟨ih1, ih2⟩ := ihx
    refine ⟨ih1, ?_⟩
    intro p hp hnl
    simp at hp
    rcases hp with hp | hp
    · rw [hp]
      simp [hb]
    · exact ih2 p hp hnl

theorem write_payload (st : OWState) (s : List Char) :
    payload (write st s).2 ++ (write st s).1.buffered_output =
      st.buffered_output ++ s :=
  writeLoop_payload st.column st.colored (st.buffered_output ++ s)

theorem consumeAll_payload (st : OWState) (cs : List (List Char)) :
    payload (consumeAll st cs).2 ++ (consumeAll st cs).1.buffered_output =
      st.buffered_output ++ cs.flatten := by
  induction cs generalizing st with
  | nil => simp [consumeAll, payload]
  | cons c cs ih =>
    simp only [consumeAll, List.flatten_cons]
    have h1 := write_payload st c
    have h2 := ih (write st c).1
    simp only [payload, List.map_append, List.flatten_append] at h1 h2 ⊢
    rw [List.append_assoc, h2, ← List.append_assoc, h1, List.append_assoc]

theorem consumeAll_colored (st : OWState) (cs : List (List Char))
    (hb : st.colored = true) :
    (consumeAll st cs).1.colored = true ∧
      ∀ p ∈ (consumeAll st cs).2, '\n' ∈ p.line → p.sfx = NO_COLOR := by
  induction cs generalizing st with
  | nil => simpa [consumeAll] using hb
  | cons c cs ih =>
    simp only [consumeAll]
    have h1 := writeLoop_colored st.column st.colored (st.buffered_output ++ c) hb
    obtain ⟨h1a, h1b⟩ := h1
    have h2 := ih (write st c).1 h1a
    obtain ⟨h2a, h2b⟩ := h2
    refine ⟨h2a, ?_⟩
    intro p hp hnl
    simp at hp
    rcases hp with hp | hp
    · exact h1b p hp hnl
    · exact h2b p hp hnl

/-- C1: the claim says consuming `"I: hello\n"` emits exactly
`"I: hello\n"` with no reset escape; in fact the empty `'I'` mapping
still sets `colored`, so the reset escape is appended. -/
theorem C1_counterexample :
    emitted (write OWinit ['I', ':', ' ', 'h', 'e', 'l', 'l', 'o', '\n']).2 ≠
      ['I', ':', ' ', 'h', 'e', 'l', 'l', 'o', '\n'] := by
  simp [emitted, pieceBytes, write, writeLoop, OWinit, breakNl,
    colorDecision, COLORS, NO_COLOR]

/-- C1 amended: consuming `"I: hello\n"` from the initial state emits the
payload unchanged with no color escape prepended (the `'I'` mapping is
empty) but with the reset escape appended, and sets `colored`. -/
theorem C1_prop :
    write OWinit ['I', ':', ' ', 'h', 'e', 'l', 'l', 'o', '\n'] =
      (⟨[], 0, true⟩,
        [⟨[], ['I', ':', ' ', 'h', 'e', 'l', 'l', 'o', '\n'], NO_COLOR⟩]) := by
  simp [write, writeLoop, OWinit, breakNl, colorDecision, COLORS, NO_COLOR]

/-- C2: the claim says a console-to-serial write failure terminates the
session with the port closed; in fact the exception is uncaught. -/
theorem C2_counterexample :
    sessionStep ['p'] OWinit (.consoleInput 'a' false) ≠ .ended true := by
  decide

/-- C2 amended: a failed serial write of a console-input unit raises out
of `teensy_mon` without closing the port, rather than ending the session
normally. -/
theorem C2_prop (pn : List Char) (ow : OWState) (c : Char) :
    sessionStep pn ow (.consoleInput c false) = .raised false := rfl

/-- C3: the claim says the concatenation of all chunks equals the
concatenation of all emitted payload bytes; a trailing byte held in the
pending buffer falsifies it. -/
theorem C3_counterexample :
    payload (consumeAll OWinit [['a']]).2 ≠ [['a']].flatten := by
  simp [payload, consumeAll, write, writeLoop, OWinit, breakNl]

/-- C3 amended: the emitted payload bytes followed by the residual
pending buffer equal the concatenation of all chunks fed in. -/
theorem C3_prop (cs : List (List Char)) :
    payload (consumeAll OWinit cs).2 ++
      (consumeAll OWinit cs).1.buffered_output = cs.flatten := by
  simpa [OWinit] using consumeAll_payload OWinit cs

/-- C4: `is_teensy` fails closed on a missing or non-matching vendor,
matches any qualifying device when no serial criterion is given, and
with a criterion returns true exactly when the device's serial is
present and equal. -/
theorem C4_prop (dev : Device) (crit : Option (List Char)) :
    ((dev.id_vendor = none ∨
        ∃ v, dev.id_vendor = some v ∧ startswith v teensyVendor = false) →
      is_teensy dev crit = .ok false) ∧
    ((∃ v, dev.id_vendor = some v ∧ startswith v teensyVendor = true) →
      crit = none → is_teensy dev crit = .ok true) ∧
    (∀ sn, (∃ v, dev.id_vendor = some v ∧ startswith v teensyVendor = true) →
      crit = some sn →
      (is_teensy dev crit = .ok true ↔ dev.id_serial_short = some sn)) := by
  obtain ⟨node, vend, ser, act⟩ := dev
  refine ⟨?_, ?_, ?_⟩
  · rintro (hv | ⟨v, hv, hpre⟩)
    · simp only at hv
      subst hv
      simp [is_teensy]
    · simp only at hv
      subst hv
      simp [is_teensy, hpre]
  · rintro ⟨v, hv, hpre⟩ hc
    simp only at hv
    subst hv
    subst hc
    simp [is_teensy, hpre]
  · rintro sn ⟨v, hv, hpre⟩ hc
    simp only at hv
    subst hv
    subst hc
    cases ser with
    | none => simp [is_teensy, hpre]
    | some s => simp [is_teensy, hpre]

theorem C4_witness :
    is_teensy ⟨['p'], none, none, ['a', 'd', 'd']⟩ none = .ok false ∧
    is_teensy ⟨['p'], some teensyVendor, some ['1'], ['a', 'd', 'd']⟩ none =
      .ok true ∧
    (is_teensy ⟨['p'], some teensyVendor, some ['1'], ['a', 'd', 'd']⟩
        (some ['1']) = .ok true ↔
      (Device.mk ['p'] (some teensyVendor) (some ['1'])
        ['a', 'd', 'd']).id_serial_short = some ['1']) :=
  ⟨(C4_prop _ none).1 (Or.inl rfl),
   (C4_prop _ none).2.1 ⟨teensyVendor, rfl, by decide⟩ rfl,
   (C4_prop _ (some ['1'])).2.2 ['1'] ⟨teensyVendor, rfl, by decide⟩ rfl⟩

/-- C5: servicing a hotplug event ends the session (with the port
closed) exactly when the polled device has the session's path and
action `'remove'`; any other event leaves the loop running unchanged. -/
theorem C5_prop (pn : List Char) (ow : OWState) (dev : Device) :
    (sessionStep pn ow (.hotplug dev) = .ended true ↔
      dev.device_node = pn ∧ dev.action = removeAction) ∧
    ((dev.device_node ≠ pn ∨ dev.action ≠ removeAction) →
      sessionStep pn ow (.hotplug dev) = .go ow [] []) := by
  by_cases h1 : dev.device_node = pn ∧ dev.action = removeAction
  · refine ⟨?_, ?_⟩
    · simp [sessionStep, h1.1, h1.2]
    · intro h
      rcases h with h | h
      · exact absurd h1.1 h
      · exact absurd h1.2 h
  · have h2 : dev.device_node ≠ pn ∨ dev.action ≠ removeAction := by tauto
    refine ⟨⟨?_, fun h => absurd h h1⟩, ?_⟩
    · intro h
      rcases h2 with h2 | h2 <;> simp [sessionStep, h2] at h
    · intro h
      rcases h2 with h2 | h2 <;> simp [sessionStep, h2]

theorem C5_witness :
    sessionStep ['p'] OWinit
        (.hotplug ⟨['p'], some teensyVendor, some ['1'], removeAction⟩) =
      .ended true ∧
    sessionStep ['p'] OWinit
        (.hotplug ⟨['q'], some teensyVendor, some ['1'], removeAction⟩) =
      .go OWinit [] [] :=
  ⟨(C5_prop ['p'] OWinit _).1.mpr ⟨rfl, rfl⟩,
   (C5_prop ['p'] OWinit _).2 (Or.inl (by decide))⟩

/-- C6: delivering `"W:"` as two single-byte chunks and as one chunk
produce identical states and identical emissions. -/
theorem C6_prop :
    consumeAll OWinit [['W'], [':']] = consumeAll OWinit [['W', ':']] := by
  simp [consumeAll, write, writeLoop, OWinit, breakNl, colorDecision, COLORS]

/-- C7: once `colored` is set it is never reset, and every subsequently
emitted newline-terminated segment carries the reset escape, whether or
not its own line was colorized. -/
theorem C7_prop (st : OWState) (cs : List (List Char))
    (hb : st.colored = true) :
    (consumeAll st cs).1.colored = true ∧
      ∀ p ∈ (consumeAll st cs).2, '\n' ∈ p.line → p.sfx = NO_COLOR :=
  consumeAll_colored st cs hb

theorem C7_witness :
    (consumeAll ⟨[], 0, true⟩ [['a', '\n']]).1.colored = true ∧
      ∀ p ∈ (consumeAll ⟨[], 0, true⟩ [['a', '\n']]).2,
        '\n' ∈ p.line → p.sfx = NO_COLOR :=
  C7_prop ⟨[], 0, true⟩ [['a', '\n']] rfl

/-- C9: after any call to `write` the pending buffer holds fewer than
two bytes, and the color-prefix decision yields nothing unless the
column is 0. -/
theorem C9_prop (st : OWState) (s : List Char) :
    (write st s).1.buffered_output.length < 2 ∧
      ∀ (c : Nat) (s' : List Char), c ≠ 0 → colorDecision c s' = none := by
  refine ⟨writeLoop_buffered st.column st.colored (st.buffered_output ++ s), ?_⟩
  intro c s' hc
  simp [colorDecision, hc]

theorem C9_witness :
    (write OWinit ['a', 'b', 'c']).1.buffered_output.length < 2 ∧
      colorDecision 3 ['X', ':'] = none :=
  ⟨(C9_prop OWinit ['a', 'b', 'c']).1,
   (C9_prop OWinit ['a', 'b', 'c']).2 3 ['X', ':'] (by decide)⟩

/-- C8: a failed bounded serial read ends the session with the port
closed, the same outcome as a matching hotplug remove, with no hotplug
event needed. -/
theorem C8_prop (pn : List Char) (ow : OWState) (msg : String)
    (dev : Device) (h1 : dev.device_node = pn)
    (h2 : dev.action = removeAction) :
    sessionStep pn ow (.serialRead (.error msg)) = .ended true ∧
    sessionStep pn ow (.serialRead (.error msg)) =
      sessionStep pn ow (.hotplug dev) := by
  refine ⟨rfl, ?_⟩
  simp [sessionStep, h1, h2]

theorem C8_witness :
    sessionStep ['p'] OWinit (.serialRead (.error "SerialException")) =
      .ended true ∧
    sessionStep ['p'] OWinit (.serialRead (.error "SerialException")) =
      sessionStep ['p'] OWinit
        (.hotplug ⟨['p'], some teensyVendor, some ['1'], removeAction⟩) :=
  C8_prop ['p'] OWinit "SerialException" _ rfl rfl

/-- C10: with the serial criterion set, a vendor-qualifying device
lacking `ID_SERIAL_SHORT` makes `is_teensy` raise `KeyError` instead of
returning false. -/
theorem C10_prop (dev : Device) (sn v : List Char)
    (hv : dev.id_vendor = some v) (hpre : startswith v teensyVendor = true)
    (hs : dev.id_serial_short = none) :
    is_teensy dev (some sn) = .error "KeyError" := by
  obtain ⟨node, vend, ser, act⟩ := dev
  simp only at hv hs
  subst hv
  subst hs
  simp [is_teensy, hpre]

theorem C10_witness :
    is_teensy ⟨['p'], some teensyVendor, none, ['a', 'd', 'd']⟩ (some ['1']) =
      .error "KeyError" :=
  C10_prop _ ['1'] teensyVendor rfl (by decide) rfl
